import Mathlib

/-!
Verification development for the dental radiograph processing pipeline
(`src/dental_image_processing.py`).

A grayscale image (`cv2`/`numpy` single-channel matrix of `uint8`) is
embedded as a row-major `List (List Nat)` of intensity values; the
pipeline's per-pixel arithmetic never leaves `0..255`, so `Nat` is exact.
Detected regions `(x, y, w, h)` become the `Region` structure.

The OpenCV and PIL primitives the source calls (`cv2.threshold`,
`cv2.findContours`/`cv2.boundingRect`, `cv2.equalizeHist`,
`cv2.GaussianBlur`) are external library routines; they are embedded here by
their documented deterministic per-pixel semantics:

* `cv2.threshold(img, 127, 255, THRESH_BINARY)` sets a pixel to `255`
  exactly when its value is strictly greater than the threshold, else `0`.
* `cv2.findContours(thresh, RETR_EXTERNAL, ...)` followed by
  `cv2.boundingRect` yields, for each maximal 8-connected component of
  nonzero pixels, its minimal axis-aligned bounding rectangle (the outer
  contour of a component encloses all of its pixels, so the bounding
  rectangle of the outer contour is the bounding rectangle of the
  component).  Components are discovered here in row-major scan order via
  a fuelled depth-first flood fill.
* `cv2.equalizeHist` builds a lookup table from the cumulative histogram:
  the first nonzero bin maps to 0, bin `v` maps to
  `round(cumsum(i0+1..v) * 255 / (total - hist(i0)))` saturated to 255,
  and a uniform image maps every pixel to its single value.  The float
  rounding of OpenCV is modelled with exact rational rounding (half up);
  no theorem below depends on the value of the lookup table.
* `cv2.GaussianBlur(img, (3,3), 0)` convolves with the separable kernel
  `[1,2,1]/4` in each axis (OpenCV's fixed small-kernel tabulation for
  `ksize = 3`, `sigma = 0`), with BORDER_REFLECT_101 edge handling, and
  the `uint8` fixed-point path rounds the result as `(S + 8) / 16` where
  `S` is the integer-weighted 3x3 sum.

The byte-level PNG/JPEG codecs of PIL (`Image.open`, `Image.save`) are
binary compression routines with no source in this repository and are not
embedded; `process_dental_image` is therefore modelled from the decoded
matrix onward (steps 2-6 of the source function), producing the
descriptor record `annotations_data` of lines 181-195.
-/

/-- A detected region `(x, y, w, h)`: top-left corner, width, height,
as returned by `cv2.boundingRect`. -/
structure Region where
  x : Nat
  y : Nat
  w : Nat
  h : Nat
deriving DecidableEq, Repr

/-- Width of a row-major matrix: length of its first row (0 if empty). -/
def width (img : List (List Nat)) : Nat := (img.headD []).length

/-- Pixel access with out-of-range default 0, matching how the flood fill
guards accesses with an explicit in-bounds test. -/
def px (img : List (List Nat)) (r c : Nat) : Nat := (img.getD r []).getD c 0

/-- Per-pixel semantics of `cv2.threshold(..., t, maxval, THRESH_BINARY)`:
`maxval` when the pixel is strictly greater than `t`, else `0`. -/
def thresholdBinary (t maxval p : Nat) : Nat := if p > t then maxval else 0

/-- The thresholded image of `detect_teeth` line 59:
`cv2.threshold(image, 127, 255, cv2.THRESH_BINARY)`. -/
def threshImage (image : List (List Nat)) : List (List Nat) :=
  image.map (fun row => row.map (thresholdBinary 127 255))

/-- Foreground test used by contour extraction: a nonzero pixel of the
thresholded image. -/
def fgAt (timg : List (List Nat)) (p : Nat × Nat) : Bool :=
  px timg p.1 p.2 != 0

/-- In-bounds test for a `(row, col)` position. -/
def inB (timg : List (List Nat)) (p : Nat × Nat) : Bool :=
  decide (p.1 < timg.length) && decide (p.2 < (timg.getD p.1 []).length)

/-- The eight neighbours of a position (8-connectivity), clipped at the
low edges; the high edges are handled by the in-bounds test of the flood
fill. -/
def nbrs (p : Nat × Nat) : List (Nat × Nat) :=
  ([(-1, -1), (-1, 0), (-1, 1), (0, -1), (0, 1), (1, -1), (1, 0), (1, 1)] :
      List (Int × Int)).filterMap
    (fun d =>
      let r : Int := (p.1 : Int) + d.1
      let c : Int := (p.2 : Int) + d.2
      if r < 0 ∨ c < 0 then none else some (r.toNat, c.toNat))

/-- Fuelled depth-first flood fill collecting one maximal 8-connected
component of foreground pixels of `timg`, starting from the seed stack. -/
def flood (timg : List (List Nat)) :
    Nat → List (Nat × Nat) → List (Nat × Nat) → List (Nat × Nat)
  | 0, _, acc => acc
  | _ + 1, [], acc => acc
  | fuel + 1, p :: stack, acc =>
    if acc.contains p then flood timg fuel stack acc
    else if inB timg p && fgAt timg p then
      flood timg fuel (nbrs p ++ stack) (p :: acc)
    else flood timg fuel stack acc

/-- Fuel bound for the flood fill: each pixel is pushed at most nine
times (once as seed, once per neighbour), so this always suffices to
drain the stack. -/
def floodFuel (timg : List (List Nat)) : Nat :=
  9 * timg.length * width timg + 1

/-- Row-major scan extracting all maximal 8-connected foreground
components, modelling the component discovery of
`cv2.findContours(..., RETR_EXTERNAL, ...)`. -/
def scanComps (timg : List (List Nat)) :
    List (Nat × Nat) → List (Nat × Nat) → List (List (Nat × Nat))
  | [], _ => []
  | p :: rest, visited =>
    if (inB timg p && fgAt timg p) && !(visited.contains p) then
      let comp := flood timg (floodFuel timg) [p] []
      comp :: scanComps timg rest (comp ++ visited)
    else scanComps timg rest visited

/-- All positions of an `H x W` matrix in row-major order. -/
def allPositions (H W : Nat) : List (Nat × Nat) :=
  ((List.range H).map (fun r => (List.range W).map (fun c => (r, c)))).flatten

/-- Minimum of a list of naturals (0 for the empty list). -/
def listMin : List Nat → Nat
  | [] => 0
  | a :: rest => rest.foldl Nat.min a

/-- Maximum of a list of naturals (0 for the empty list). -/
def listMax : List Nat → Nat
  | [] => 0
  | a :: rest => rest.foldl Nat.max a

/-- Semantics of `cv2.boundingRect` on a component given by its pixel
positions `(row, col)`: minimal enclosing axis-aligned rectangle. -/
def boundingRect (comp : List (Nat × Nat)) : Region :=
  match comp with
  | [] => ⟨0, 0, 0, 0⟩
  | q :: qs =>
    let xs := (q :: qs).map Prod.snd
    let ys := (q :: qs).map Prod.fst
    ⟨listMin xs, listMin ys, listMax xs + 1 - listMin xs, listMax ys + 1 - listMin ys⟩

/-- `detect_teeth` (source lines 47-75): threshold at 127, extract
external contours / connected components, take bounding rectangles, and
keep those with `w > 20 and h > 20 and w < 100 and h < 100`. -/
def detect_teeth (image : List (List Nat)) : List Region :=
  let thresh := threshImage image
  let comps := scanComps thresh (allPositions thresh.length (width thresh)) []
  (comps.map boundingRect).filter
    (fun r => decide (r.w > 20) && decide (r.h > 20) && decide (r.w < 100) && decide (r.h < 100))

/-- The label string `f"Tooth {n}"`. -/
def toothLabel (n : Nat) : String := "Tooth " ++ toString n

/-- Stable insertion by ascending `x`: an element is placed before the
first element whose `x` is not smaller, so earlier elements stay first
among equal keys. -/
def insertByX (r : Region) : List Region → List Region
  | [] => [r]
  | s :: rest => if r.x ≤ s.x then r :: s :: rest else s :: insertByX r rest

/-- Stable sort by ascending `x`, the semantics of
`sorted(regions, key=lambda r: r[0])` (Python's sort is stable). -/
def sortByX : List Region → List Region
  | [] => []
  | r :: rest => insertByX r (sortByX rest)

/-- `number_teeth` (source lines 77-97): sort the regions by ascending
`x` (Python's `sorted` is stable), then build the dict
`{i : f"Tooth {i+1}"}` over the enumeration of the sorted list.  The
Python dict with keys inserted in order `0..N-1` is embedded as an
association list. -/
def number_teeth (regions : List Region) : List (Nat × String) :=
  let sorted_regions := sortByX regions
  sorted_regions.enum.map (fun p => (p.1, toothLabel (p.1 + 1)))

/-- One entry of the descriptor's `teeth` list: the label found for the
detection index (`None` would be a `KeyError` in Python) and the region's
coordinates. -/
structure ToothInfo where
  number : Option String
  position : Region
deriving DecidableEq, Repr

/-- The descriptor record assembled by `process_dental_image`
(source lines 181-195): `teeth_count` and, for each region in original
detection order `i`, the label `tooth_numbers[i]` and its position. -/
structure AnnotationsData where
  teeth_count : Nat
  teeth : List ToothInfo
deriving DecidableEq, Repr

/-- Descriptor assembly of `process_dental_image` lines 181-195: the
`teeth` list enumerates `teeth_regions` in detection order and looks each
index up in the `tooth_numbers` dict. -/
def annotations_data (teeth_regions : List Region) (tooth_numbers : List (Nat × String)) :
    AnnotationsData :=
  { teeth_count := teeth_regions.length
    teeth := teeth_regions.enum.map
      (fun p => { number := tooth_numbers.lookup p.1, position := p.2 }) }

/-- Histogram-equalization pixel pool: all pixels of the matrix. -/
def pixels (img : List (List Nat)) : List Nat := img.flatten

/-- Histogram bin `v`: how many pixels have intensity `v`. -/
def hist (img : List (List Nat)) (v : Nat) : Nat := (pixels img).count v

/-- Total number of pixels. -/
def totalPixels (img : List (List Nat)) : Nat := (pixels img).length

/-- Cumulative histogram up to and including bin `v`. -/
def cdf (img : List (List Nat)) (v : Nat) : Nat :=
  ((List.range (v + 1)).map (hist img)).sum

/-- Round-half-up division, modelling OpenCV's float rounding of the
equalization lookup table with exact rational arithmetic. -/
def roundDiv (n d : Nat) : Nat := (2 * n + d) / (2 * d)

/-- Index of the first nonzero histogram bin (0 for an empty image). -/
def firstNonzeroBin (img : List (List Nat)) : Nat :=
  (((List.range 256).find? (fun v => hist img v != 0)).getD 0)

/-- The `cv2.equalizeHist` lookup table: the first nonzero bin maps to 0,
later bins to the scaled cumulative count, saturated at 255. -/
def lut (img : List (List Nat)) (v : Nat) : Nat :=
  let i0 := firstNonzeroBin img
  if v ≤ i0 then 0
  else
    Nat.min 255 (roundDiv ((cdf img v - cdf img i0) * 255) (totalPixels img - hist img i0))

/-- `cv2.equalizeHist`: a uniform image (its single bin holds every
pixel) maps to itself value-wise; otherwise every pixel goes through the
lookup table. -/
def equalizeHist (img : List (List Nat)) : List (List Nat) :=
  if hist img (firstNonzeroBin img) = totalPixels img then
    img.map (fun row => row.map (fun _ => firstNonzeroBin img))
  else
    img.map (fun row => row.map (fun v => lut img v))

/-- BORDER_REFLECT_101 index reflection for a 3x3 kernel: `-1` reflects
to `1` and `len` reflects to `len - 2` (a single-row/column axis
degenerates to index 0). -/
def reflect101 (len : Nat) (i : Int) : Nat :=
  if len ≤ 1 then 0
  else if i < 0 then (-i).toNat
  else if (len : Int) ≤ i then (2 * (len : Int) - 2 - i).toNat
  else i.toNat

/-- One output pixel of `cv2.GaussianBlur(img, (3,3), 0)` on `uint8`
data: the `[[1,2,1],[2,4,2],[1,2,1]]`-weighted sum with reflected
borders, rounded as `(S + 8) / 16`. -/
def blurAt (img : List (List Nat)) (H W r c : Nat) : Nat :=
  let g : Int → Int → Nat := fun dr dc =>
    px img (reflect101 H ((r : Int) + dr)) (reflect101 W ((c : Int) + dc))
  (g (-1) (-1) + 2 * g (-1) 0 + g (-1) 1 +
   2 * g 0 (-1) + 4 * g 0 0 + 2 * g 0 1 +
   g 1 (-1) + 2 * g 1 0 + g 1 1 + 8) / 16

/-- `cv2.GaussianBlur(img, (3,3), 0)`: same-size output of blurred
pixels. -/
def gaussianBlur3 (img : List (List Nat)) : List (List Nat) :=
  (List.range img.length).map
    (fun r => (List.range (width img)).map (fun c => blurAt img img.length (width img) r c))

/-- `enhance_image` (source lines 28-45): histogram equalization followed
by a 3x3 Gaussian blur. -/
def enhance_image (image : List (List Nat)) : List (List Nat) :=
  gaussianBlur3 (equalizeHist image)

/-- Steps 2-6 of `process_dental_image` (source lines 155-200), from the
already-decoded grayscale matrix to the descriptor record: enhance,
detect, number, and assemble `annotations_data`.  The byte decoding of
step 1 (`load_image`, PIL) and the image annotation/re-encoding of steps
5 and 7 are external-library operations that do not affect the
descriptor. -/
def process_dental_image (original_image : List (List Nat)) : AnnotationsData :=
  let enhanced_image := enhance_image original_image
  let teeth_regions := detect_teeth enhanced_image
  let tooth_numbers := number_teeth teeth_regions
  annotations_data teeth_regions tooth_numbers

/-- Two detected regions in discovery order: the region at `x = 150`
discovered first, the region at `x = 10` second; both are 30x30 and pass
the size filter. -/
def c1Regions : List Region := [⟨150, 10, 30, 30⟩, ⟨10, 10, 30, 30⟩]

/-- A blank (all-zero) grayscale image of the given size. -/
def blankImg (H W : Nat) : List (List Nat) :=
  List.replicate H (List.replicate W 0)

/-- The blank 200x200 image of the spec scenario. -/
def blank200 : List (List Nat) := blankImg 200 200

/-- A 21x21 test image whose bright pixels (value 200) form a cross of
row 0 and column 0: a single 8-connected component with bounding box
`(0, 0, 21, 21)`, which passes the size filter. -/
def img21 : List (List Nat) :=
  (List.range 21).map (fun r => (List.range 21).map (fun c => if r = 0 ∨ c = 0 then 200 else 0))

/-! ## Structure of the label map (`number_teeth`) -/

/-- Inserting one region grows the list by one. -/
theorem length_insertByX (r : Region) : ∀ l : List Region,
    (insertByX r l).length = l.length + 1
  | [] => rfl
  | s :: rest => by
    unfold insertByX
    split
    · rfl
    · simp [length_insertByX r rest]

/-- The stable sort preserves the number of regions. -/
theorem length_sortByX : ∀ l : List Region, (sortByX l).length = l.length
  | [] => rfl
  | r :: rest => by
    unfold sortByX
    rw [length_insertByX, length_sortByX rest]
    rfl

/-- The label dict built by `number_teeth` is the association list
`[(0, "Tooth 1"), ..., (N-1, "Tooth N")]`: the enumeration indices of the
sorted list ignore the sorted regions themselves, so the result depends
only on the number of regions. -/
theorem number_teeth_eq (regions : List Region) :
    number_teeth regions
      = (List.range regions.length).map (fun i => (i, toothLabel (i + 1))) := by
  unfold number_teeth
  have h1 : (fun p : Nat × Region => (p.1, toothLabel (p.1 + 1)))
      = (fun i : Nat => (i, toothLabel (i + 1))) ∘ Prod.fst := rfl
  rw [h1, ← List.map_map, List.enum_map_fst, length_sortByX]

/-- Looking up `k + i` in the association list over `range' k n` built by
the label map succeeds whenever `i < n`. -/
theorem lookup_range_toothLabel : ∀ (n k i : Nat), i < n →
    List.lookup (k + i) ((List.range' k n).map (fun j => (j, toothLabel (j + 1))))
      = some (toothLabel (k + i + 1))
  | 0, _, i, h => absurd h (Nat.not_lt_zero i)
  | n + 1, k, 0, _ => by
    simp [List.range'_succ, List.lookup]
  | n + 1, k, i + 1, h => by
    have hne : ((k + (i + 1) : Nat) == k) = false := by
      simp
    rw [List.range'_succ, List.map_cons, List.lookup_cons, hne]
    have hshift : k + (i + 1) = (k + 1) + i := by omega
    rw [hshift]
    exact lookup_range_toothLabel n (k + 1) i (by omega)

/-- Every detection index below the region count has a label in the
dict. -/
theorem number_teeth_lookup (regions : List Region) (i : Nat) (h : i < regions.length) :
    (number_teeth regions).lookup i = some (toothLabel (i + 1)) := by
  rw [number_teeth_eq, List.range_eq_range']
  simpa using lookup_range_toothLabel regions.length 0 i h

/-- C4: `number_teeth` assigns exactly one label per input region; the
keys are exactly the positions `0..N-1` of the ascending-`x` (stable)
sorted order, and the labels are exactly `"Tooth 1"` through
`"Tooth N"`, with no gaps or duplicates. -/
theorem labeler_one_label_per_region (regions : List Region) :
    (number_teeth regions).map Prod.fst = List.range regions.length ∧
    (number_teeth regions).map Prod.snd
      = (List.range regions.length).map (fun i => toothLabel (i + 1)) := by
  rw [number_teeth_eq]
  have h1 : (Prod.fst ∘ fun i : Nat => (i, toothLabel (i + 1))) = id := rfl
  have h2 : (Prod.snd ∘ fun i : Nat => (i, toothLabel (i + 1)))
      = fun i : Nat => toothLabel (i + 1) := rfl
  constructor
  · rw [List.map_map, h1, List.map_id]
  · rw [List.map_map, h2]

/-- C10: the label mapping depends only on the number of regions — it is
`i ↦ "Tooth (i+1)"` on `0..N-1` for every region list — and therefore
the index lookups `tooth_numbers[i]` done by `annotate_image` and by the
descriptor construction succeed for every detection index `i < N`. -/
theorem label_map_depends_only_on_count (regions : List Region) :
    number_teeth regions
        = (List.range regions.length).map (fun i => (i, toothLabel (i + 1))) ∧
    ∀ i, i < regions.length →
      (number_teeth regions).lookup i = some (toothLabel (i + 1)) :=
  ⟨number_teeth_eq regions, fun i h => number_teeth_lookup regions i h⟩

/-- Witness for C10 at a concrete one-region list. -/
theorem label_map_depends_only_on_count_witness :
    (number_teeth [Region.mk 5 5 30 30]).lookup 0 = some (toothLabel 1) :=
  (label_map_depends_only_on_count [Region.mk 5 5 30 30]).2 0 (by decide)

/-! ## The descriptor applies labels by detection index (C1) -/

/-- C1: evaluation of the descriptor assembly at the failing input.  With
the region at `x = 150` discovered first and the region at `x = 10`
second (both 30x30, passing the size filter), the descriptor pairs
`"Tooth 1"` with the region at `x = 150` and `"Tooth 2"` with the region
at `x = 10`: labels follow the original detection order, not the
ascending-`x` order, contradicting the claim that the leftmost region is
always `"Tooth 1"`. -/
theorem descriptor_label_follows_discovery_order :
    (annotations_data c1Regions (number_teeth c1Regions)).teeth.map
        (fun t => (t.number, t.position.x))
      = [(some (toothLabel 1), 150), (some (toothLabel 2), 10)] := by
  decide

/-! ## Binarization semantics (C2) -/

/-- `getD` commutes with `map` when the default is mapped too. -/
theorem getD_map (f : α → β) (l : List α) (i : Nat) (d : α) :
    (l.map f).getD i (f d) = f (l.getD i d) := by
  induction l generalizing i with
  | nil => simp [List.getD]
  | cons a rest ih =>
    cases i with
    | zero => simp
    | succ j =>
      simp only [List.map_cons, List.getD_cons_succ]
      exact ih j

/-- Variant of `getD_map` taking the mapped default as a side
condition. -/
theorem getD_map_of_default (f : α → β) (l : List α) (i : Nat) (d : α) (e : β)
    (hd : f d = e) : (l.map f).getD i e = f (l.getD i d) := by
  rw [← hd]
  exact getD_map f l i d

/-- The thresholded image agrees pointwise with `thresholdBinary`
everywhere (the out-of-range default 0 is a fixed point of the
threshold map). -/
theorem px_threshImage (img : List (List Nat)) (r c : Nat) :
    px (threshImage img) r c = thresholdBinary 127 255 (px img r c) := by
  unfold px threshImage
  rw [getD_map_of_default _ img r [] [] rfl,
    getD_map_of_default _ (img.getD r []) c 0 0 rfl]

/-- C2 counterexample: a pixel of intensity exactly 127 is mapped to 0
(background) by the binarization, not to 255 (foreground) as the claim
states. -/
theorem binarization_at_127_counterexample :
    px (threshImage [[127]]) 0 0 = 0 ∧ px (threshImage [[127]]) 0 0 ≠ 255 := by
  decide

/-- C2 (amended): in the binarization step, an in-bounds pixel becomes
foreground (255) exactly when its intensity is strictly greater than
127, and becomes background (0) exactly when its intensity is at most
127; in particular a pixel of intensity exactly 127 is background. -/
theorem binarization_strict (img : List (List Nat)) (r c : Nat)
    (_hr : r < img.length) (_hc : c < (img.getD r []).length) :
    (px (threshImage img) r c = 255 ↔ 127 < px img r c) ∧
    (px (threshImage img) r c = 0 ↔ px img r c ≤ 127) := by
  rw [px_threshImage img r c]
  unfold thresholdBinary
  by_cases h : 127 < px img r c
  all_goals simp [h]
  all_goals omega

/-- Witness for C2 (amended) at a concrete image. -/
theorem binarization_strict_witness :
    (px (threshImage [[127, 200]]) 0 1 = 255 ↔ 127 < px [[127, 200]] 0 1) ∧
    (px (threshImage [[127, 200]]) 0 1 = 0 ↔ px [[127, 200]] 0 1 ≤ 127) :=
  binarization_strict [[127, 200]] 0 1 (by decide) (by decide)

/-! ## Dimension preservation of the enhancer (C5) -/

/-- Histogram equalization preserves the number of rows (both branches
map over the rows). -/
theorem length_equalizeHist (img : List (List Nat)) :
    (equalizeHist img).length = img.length := by
  unfold equalizeHist
  split
  · simp
  · simp

/-- Histogram equalization preserves the width (both branches map over
each row pointwise). -/
theorem width_equalizeHist (img : List (List Nat)) :
    width (equalizeHist img) = width img := by
  cases img with
  | nil =>
    unfold equalizeHist
    split
    · rfl
    · rfl
  | cons row rest =>
    unfold equalizeHist width
    split
    · simp
    · simp

/-- C5: the enhanced image has exactly the dimensions of the input:
the same number of rows, and every row of the output has the input's
width. -/
theorem enhancer_preserves_dimensions (image : List (List Nat)) :
    (enhance_image image).length = image.length ∧
    (enhance_image image).map List.length
      = List.replicate image.length (width image) := by
  unfold enhance_image gaussianBlur3
  constructor
  · simp [length_equalizeHist]
  · apply List.eq_replicate_iff.mpr
    constructor
    · simp [length_equalizeHist]
    · intro b hb
      simp only [List.map_map, List.mem_map] at hb
      obtain ⟨r, _, hb⟩ := hb
      rw [← hb]
      simp [width_equalizeHist]

/-! ## Blank images produce no detections (C6) -/

/-- `getD` on a replicated list. -/
theorem getD_replicate (a d : α) (n i : Nat) :
    (List.replicate n a).getD i d = if i < n then a else d := by
  induction n generalizing i with
  | zero => simp
  | succ m ih =>
    cases i with
    | zero => simp
    | succ j =>
      rw [List.replicate_succ, List.getD_cons_succ, ih j]
      simp [Nat.succ_lt_succ_iff]

/-- Every pixel read of a blank image yields 0. -/
theorem px_blank (H W r c : Nat) : px (blankImg H W) r c = 0 := by
  unfold px blankImg
  rw [getD_replicate]
  split
  · rw [getD_replicate]
    split
    · rfl
    · rfl
  · rfl

/-- Flattening a replicated replicated list. -/
theorem flatten_replicate_replicate (a : α) : ∀ H W : Nat,
    (List.replicate H (List.replicate W a)).flatten = List.replicate (H * W) a
  | 0, _ => by simp
  | H + 1, W => by
    rw [List.replicate_succ, List.flatten_cons, flatten_replicate_replicate a H W]
    rw [show (H + 1) * W = W + H * W by ring, List.replicate_add]

/-- The pixel pool of a blank image. -/
theorem pixels_blank (H W : Nat) : pixels (blankImg H W) = List.replicate (H * W) 0 := by
  unfold pixels blankImg
  exact flatten_replicate_replicate 0 H W

/-- Histogram of a blank image at bin 0. -/
theorem hist_blank_zero (H W : Nat) : hist (blankImg H W) 0 = H * W := by
  unfold hist
  rw [pixels_blank]
  simp

/-- Pixel count of a blank image. -/
theorem totalPixels_blank (H W : Nat) : totalPixels (blankImg H W) = H * W := by
  unfold totalPixels
  rw [pixels_blank]
  simp

/-- The first nonzero histogram bin of a blank image is 0. -/
theorem firstNonzeroBin_blank (H W : Nat) : firstNonzeroBin (blankImg H W) = 0 := by
  unfold firstNonzeroBin
  by_cases h : H * W = 0
  · have hfind : (List.range 256).find? (fun v => hist (blankImg H W) v != 0) = none := by
      apply List.find?_eq_none.mpr
      intro x _
      simp only [hist, pixels_blank, h, List.replicate_zero]
      simp
    rw [hfind]
    rfl
  · have h0 : (fun v => hist (blankImg H W) v != 0) 0 = true := by
      simp [hist_blank_zero, h]
    have hfind : List.find? (fun v => hist (blankImg H W) v != 0)
        (0 :: List.map Nat.succ (List.range 255)) = some 0 :=
      List.find?_cons_of_pos _ h0
    rw [show (256 : Nat) = 255 + 1 from rfl, List.range_succ_eq_map, hfind]
    rfl

/-- Histogram equalization maps a blank image to itself (the uniform
branch of `cv2.equalizeHist`). -/
theorem equalizeHist_blank (H W : Nat) : equalizeHist (blankImg H W) = blankImg H W := by
  simp only [equalizeHist, firstNonzeroBin_blank]
  rw [if_pos (by rw [hist_blank_zero, totalPixels_blank])]
  unfold blankImg
  rw [List.map_replicate, List.map_replicate]

/-- Width of a nonempty blank image. -/
theorem width_blank (H W : Nat) (h : 0 < H) : width (blankImg H W) = W := by
  cases H with
  | zero => omega
  | succ m => simp [blankImg, width, List.replicate_succ]

/-- Blurring a blank image yields 0 at every output position. -/
theorem blurAt_blank (H W r c : Nat) : blurAt (blankImg H W) H W r c = 0 := by
  simp [blurAt, px_blank]

/-- The Gaussian blur maps a blank image to itself. -/
theorem gaussianBlur3_blank (H W : Nat) : gaussianBlur3 (blankImg H W) = blankImg H W := by
  show gaussianBlur3 (blankImg H W) = List.replicate H (List.replicate W 0)
  apply List.eq_replicate_iff.mpr
  constructor
  · simp [gaussianBlur3, blankImg]
  · intro b hb
    simp only [gaussianBlur3, List.mem_map, List.mem_range] at hb
    obtain ⟨r, hr, hb⟩ := hb
    have hH : 0 < H := by
      have : (blankImg H W).length = H := by simp [blankImg]
      omega
    rw [← hb]
    apply List.eq_replicate_iff.mpr
    constructor
    · simp [width_blank H W hH]
    · intro v hv
      simp only [List.mem_map] at hv
      obtain ⟨c, _, hv⟩ := hv
      rw [← hv]
      have hlen : (blankImg H W).length = H := by simp [blankImg]
      rw [hlen, width_blank H W hH]
      exact blurAt_blank H W r c

/-- Enhancing a blank image yields the blank image. -/
theorem enhance_blank (H W : Nat) : enhance_image (blankImg H W) = blankImg H W := by
  unfold enhance_image
  rw [equalizeHist_blank, gaussianBlur3_blank]

/-- Thresholding a blank image yields the blank image. -/
theorem threshImage_blank (H W : Nat) : threshImage (blankImg H W) = blankImg H W := by
  unfold threshImage blankImg
  rw [List.map_replicate, List.map_replicate]
  rfl

/-- No position of a blank image is foreground. -/
theorem fgAt_blank (H W : Nat) (p : Nat × Nat) : fgAt (blankImg H W) p = false := by
  unfold fgAt
  rw [px_blank]
  rfl

/-- The component scan of an image with no foreground pixel finds
nothing. -/
theorem scanComps_eq_nil (timg : List (List Nat)) (h : ∀ p, fgAt timg p = false) :
    ∀ ps visited, scanComps timg ps visited = []
  | [], _ => rfl
  | p :: rest, visited => by
    unfold scanComps
    rw [h p]
    simp only [Bool.and_false, Bool.false_and, if_false]
    exact scanComps_eq_nil timg h rest visited

/-- `detect_teeth` finds nothing in a blank image. -/
theorem detect_teeth_blank (H W : Nat) : detect_teeth (blankImg H W) = [] := by
  simp only [detect_teeth, threshImage_blank]
  rw [scanComps_eq_nil (blankImg H W) (fgAt_blank H W)]
  rfl

/-! ## The size filter and region invariant of the detector (C3, C9) -/

/-- A left fold of `Nat.min` never exceeds its initial value. -/
theorem foldl_min_le_init : ∀ (l : List Nat) (a : Nat), l.foldl Nat.min a ≤ a
  | [], a => Nat.le_refl a
  | x :: xs, a =>
    Nat.le_trans (foldl_min_le_init xs (Nat.min a x)) (Nat.min_le_left a x)

/-- A left fold of `Nat.min` never exceeds any list element. -/
theorem foldl_min_le_mem : ∀ (l : List Nat) (a b : Nat), b ∈ l → l.foldl Nat.min a ≤ b
  | x :: xs, a, b, h => by
    cases List.mem_cons.mp h with
    | inl heq =>
      subst heq
      exact Nat.le_trans (foldl_min_le_init xs (Nat.min a b)) (Nat.min_le_right a b)
    | inr hmem => exact foldl_min_le_mem xs (Nat.min a x) b hmem

/-- `listMin` is a lower bound of the list. -/
theorem listMin_le {l : List Nat} {b : Nat} (h : b ∈ l) : listMin l ≤ b := by
  cases l with
  | nil => cases h
  | cons a rest =>
    cases List.mem_cons.mp h with
    | inl heq =>
      subst heq
      exact foldl_min_le_init rest b
    | inr hmem => exact foldl_min_le_mem rest a b hmem

/-- A left fold of `Nat.max` dominates its initial value. -/
theorem init_le_foldl_max : ∀ (l : List Nat) (a : Nat), a ≤ l.foldl Nat.max a
  | [], a => Nat.le_refl a
  | x :: xs, a =>
    Nat.le_trans (Nat.le_max_left a x) (init_le_foldl_max xs (Nat.max a x))

/-- A left fold of `Nat.max` dominates every list element. -/
theorem mem_le_foldl_max : ∀ (l : List Nat) (a b : Nat), b ∈ l → b ≤ l.foldl Nat.max a
  | x :: xs, a, b, h => by
    cases List.mem_cons.mp h with
    | inl heq =>
      subst heq
      exact Nat.le_trans (Nat.le_max_right a b) (init_le_foldl_max xs (Nat.max a b))
    | inr hmem => exact mem_le_foldl_max xs (Nat.max a x) b hmem

/-- `listMax` is an upper bound of the list. -/
theorem le_listMax {l : List Nat} {b : Nat} (h : b ∈ l) : b ≤ listMax l := by
  cases l with
  | nil => cases h
  | cons a rest =>
    cases List.mem_cons.mp h with
    | inl heq =>
      subst heq
      exact init_le_foldl_max rest b
    | inr hmem => exact mem_le_foldl_max rest a b hmem

/-- A fold of `Nat.max` over strictly bounded values stays strictly
bounded. -/
theorem foldl_max_lt : ∀ (l : List Nat) (a B : Nat), a < B → (∀ b ∈ l, b < B) →
    l.foldl Nat.max a < B
  | [], _, _, ha, _ => ha
  | x :: xs, a, B, ha, hall => by
    apply foldl_max_lt xs (Nat.max a x) B
    · exact Nat.max_lt.mpr ⟨ha, hall x (List.mem_cons_self x xs)⟩
    · intro b hb
      exact hall b (List.mem_cons_of_mem x hb)

/-- The maximum of a nonempty list of strictly bounded values is
strictly bounded. -/
theorem listMax_lt {l : List Nat} {B : Nat} (hne : l ≠ []) (hall : ∀ b ∈ l, b < B) :
    listMax l < B := by
  cases l with
  | nil => exact absurd rfl hne
  | cons a rest =>
    exact foldl_max_lt rest a B (hall a (List.mem_cons_self a rest))
      (fun b hb => hall b (List.mem_cons_of_mem a hb))

/-- The flood fill only ever accumulates positions that pass the
in-bounds test (it pushes a pixel only after checking `inB`). -/
theorem flood_inB (timg : List (List Nat)) : ∀ (fuel : Nat) (stack acc : List (Nat × Nat)),
    (∀ q ∈ acc, inB timg q = true) → ∀ q ∈ flood timg fuel stack acc, inB timg q = true
  | 0, _, _, hacc => hacc
  | _ + 1, [], _, hacc => hacc
  | fuel + 1, p :: stack, acc, hacc => by
    unfold flood
    split
    · exact flood_inB timg fuel stack acc hacc
    · split
      · next hcond =>
        apply flood_inB timg fuel (nbrs p ++ stack) (p :: acc)
        intro q hq
        cases List.mem_cons.mp hq with
        | inl heq =>
          subst heq
          exact (Bool.and_eq_true _ _).mp hcond |>.1
        | inr h2 => exact hacc q h2
      · exact flood_inB timg fuel stack acc hacc

/-- Every component produced by the scan is a flood fill from a single
seed with an empty accumulator. -/
theorem scanComps_flood (timg : List (List Nat)) : ∀ (ps visited : List (Nat × Nat))
    (comp : List (Nat × Nat)), comp ∈ scanComps timg ps visited →
    ∃ p, comp = flood timg (floodFuel timg) [p] []
  | [], _, comp, h => absurd h (List.not_mem_nil comp)
  | p :: rest, visited, comp, h => by
    unfold scanComps at h
    split at h
    · cases List.mem_cons.mp h with
      | inl heq => exact ⟨p, heq⟩
      | inr h2 =>
        exact scanComps_flood timg rest (flood timg (floodFuel timg) [p] [] ++ visited) comp h2
    · exact scanComps_flood timg rest visited comp h

/-- Every pixel of every scanned component passes the in-bounds test. -/
theorem scanComps_inB (timg : List (List Nat)) (ps visited comp : List (Nat × Nat))
    (h : comp ∈ scanComps timg ps visited) : ∀ q ∈ comp, inB timg q = true := by
  obtain ⟨p, hp⟩ := scanComps_flood timg ps visited comp h
  subst hp
  exact flood_inB timg (floodFuel timg) [p] []
    (fun q hq => absurd hq (List.not_mem_nil q))

/-- An in-bounds position of the thresholded image is an in-bounds
position of the (rectangular) source matrix. -/
theorem inB_threshImage (image : List (List Nat)) (q : Nat × Nat)
    (hW : ∀ row ∈ image, row.length = width image)
    (h : inB (threshImage image) q = true) :
    q.1 < image.length ∧ q.2 < width image := by
  unfold inB at h
  rw [Bool.and_eq_true, decide_eq_true_eq, decide_eq_true_eq] at h
  obtain ⟨h1, h2⟩ := h
  have hlen : (threshImage image).length = image.length := by simp [threshImage]
  rw [hlen] at h1
  refine ⟨h1, ?_⟩
  have hrow : (threshImage image).getD q.1 []
      = (image.getD q.1 []).map (thresholdBinary 127 255) := by
    unfold threshImage
    exact getD_map_of_default _ image q.1 [] [] rfl
  rw [hrow, List.length_map] at h2
  have hmem : image.getD q.1 [] ∈ image := by
    rw [List.getD_eq_getElem _ _ h1]
    exact List.getElem_mem h1
  rw [hW _ hmem] at h2
  exact h2

/-- The bounding rectangle of a nonempty component whose pixels lie in
an `H x W` grid lies inside that grid. -/
theorem boundingRect_bounds (comp : List (Nat × Nat)) (W H : Nat) (hne : comp ≠ [])
    (hin : ∀ q ∈ comp, q.1 < H ∧ q.2 < W) :
    (boundingRect comp).x + (boundingRect comp).w ≤ W ∧
    (boundingRect comp).y + (boundingRect comp).h ≤ H := by
  match comp, hne with
  | q :: qs, _ =>
    have hqx : q.2 ∈ (q :: qs).map Prod.snd :=
      List.mem_map_of_mem Prod.snd (List.mem_cons_self q qs)
    have hqy : q.1 ∈ (q :: qs).map Prod.fst :=
      List.mem_map_of_mem Prod.fst (List.mem_cons_self q qs)
    have hmmx : listMin ((q :: qs).map Prod.snd) ≤ listMax ((q :: qs).map Prod.snd) :=
      Nat.le_trans (listMin_le hqx) (le_listMax hqx)
    have hmmy : listMin ((q :: qs).map Prod.fst) ≤ listMax ((q :: qs).map Prod.fst) :=
      Nat.le_trans (listMin_le hqy) (le_listMax hqy)
    have hmx : listMax ((q :: qs).map Prod.snd) < W := by
      apply listMax_lt (by simp)
      intro b hb
      obtain ⟨u, hu, hub⟩ := List.mem_map.mp hb
      rw [← hub]
      exact (hin u hu).2
    have hmy : listMax ((q :: qs).map Prod.fst) < H := by
      apply listMax_lt (by simp)
      intro b hb
      obtain ⟨u, hu, hub⟩ := List.mem_map.mp hb
      rw [← hub]
      exact (hin u hu).1
    unfold boundingRect
    constructor
    · show listMin ((q :: qs).map Prod.snd)
        + (listMax ((q :: qs).map Prod.snd) + 1 - listMin ((q :: qs).map Prod.snd)) ≤ W
      omega
    · show listMin ((q :: qs).map Prod.fst)
        + (listMax ((q :: qs).map Prod.fst) + 1 - listMin ((q :: qs).map Prod.fst)) ≤ H
      omega

/-- C3: every region returned by `detect_teeth` has width and height
strictly between 20 and 100. -/
theorem detector_size_filter (image : List (List Nat)) (r : Region)
    (hr : r ∈ detect_teeth image) :
    20 < r.w ∧ r.w < 100 ∧ 20 < r.h ∧ r.h < 100 := by
  unfold detect_teeth at hr
  rw [List.mem_filter] at hr
  have hfilt := hr.2
  simp only [Bool.and_eq_true, decide_eq_true_eq] at hfilt
  exact ⟨hfilt.1.1.1, hfilt.1.2, hfilt.1.1.2, hfilt.2⟩

set_option maxRecDepth 100000 in
set_option maxHeartbeats 1000000 in
/-- Witness for C3: the cross-shaped test image yields the region
`(0, 0, 21, 21)`, whose width and height satisfy the strict bounds. -/
theorem detector_size_filter_witness :
    20 < (Region.mk 0 0 21 21).w ∧ (Region.mk 0 0 21 21).w < 100 ∧
    20 < (Region.mk 0 0 21 21).h ∧ (Region.mk 0 0 21 21).h < 100 :=
  detector_size_filter img21 (Region.mk 0 0 21 21) (by decide)

/-- C9: every region returned by `detect_teeth` on a rectangular matrix
has positive width and height and lies entirely within the matrix
bounds (`x + w` at most the width, `y + h` at most the height; `x` and
`y` are naturals, hence nonnegative). -/
theorem detector_regions_within_bounds (image : List (List Nat)) (r : Region)
    (hW : ∀ row ∈ image, row.length = width image)
    (hr : r ∈ detect_teeth image) :
    0 < r.w ∧ 0 < r.h ∧ r.x + r.w ≤ width image ∧ r.y + r.h ≤ image.length := by
  have hsz := detector_size_filter image r hr
  unfold detect_teeth at hr
  rw [List.mem_filter] at hr
  obtain ⟨hmem, _⟩ := hr
  rw [List.mem_map] at hmem
  obtain ⟨comp, hcomp, hbr⟩ := hmem
  have hne : comp ≠ [] := by
    intro hnil
    subst hnil
    rw [show boundingRect [] = ⟨0, 0, 0, 0⟩ from rfl] at hbr
    rw [← hbr] at hsz
    exact absurd hsz.1 (by decide)
  have hin : ∀ q ∈ comp, q.1 < image.length ∧ q.2 < width image := by
    intro q hq
    exact inB_threshImage image q hW
      (scanComps_inB (threshImage image) _ _ comp hcomp q hq)
  have hbounds := boundingRect_bounds comp (width image) image.length hne hin
  rw [hbr] at hbounds
  exact ⟨by omega, by omega, hbounds.1, hbounds.2⟩

set_option maxRecDepth 100000 in
set_option maxHeartbeats 1000000 in
/-- Witness for C9: the region detected in the cross-shaped test image
lies within the 21x21 matrix. -/
theorem detector_regions_within_bounds_witness :
    0 < (Region.mk 0 0 21 21).w ∧ 0 < (Region.mk 0 0 21 21).h ∧
    (Region.mk 0 0 21 21).x + (Region.mk 0 0 21 21).w ≤ width img21 ∧
    (Region.mk 0 0 21 21).y + (Region.mk 0 0 21 21).h ≤ img21.length :=
  detector_regions_within_bounds img21 (Region.mk 0 0 21 21) (by decide) (by decide)

/-- C6: the blank 200x200 grayscale image yields an empty detected-region
sequence from `detect_teeth` (run, as in the pipeline, on the enhanced
image) and a descriptor with `teeth_count = 0` and an empty `teeth`
list — an empty sequence, not an error. -/
theorem blank_image_yields_empty_descriptor :
    detect_teeth (enhance_image blank200) = [] ∧
    process_dental_image blank200 = ⟨0, []⟩ := by
  have h1 : detect_teeth (enhance_image blank200) = [] := by
    unfold blank200
    rw [enhance_blank, detect_teeth_blank]
  constructor
  · exact h1
  · show annotations_data (detect_teeth (enhance_image blank200))
      (number_teeth (detect_teeth (enhance_image blank200))) = ⟨0, []⟩
    rw [h1]
    rfl
